import Mathlib

/-!
# Verification of `chainerrl/experiments/evaluator.py`

A shallow embedding of the evaluator module: the scoring helper
`eval_performance`, the single-process `Evaluator` and the multi-process
`AsyncEvaluator`, together with theorems settling the specification claims.

Modelling conventions:
* Python floats (rewards, scores, means) are modelled as `ℚ`; the one
  irrational quantity, the sample standard deviation, lives in `ℝ`.
* Python ints (`t`, `eval_interval`, `step_offset`, `prev_eval_t`) are `ℤ`;
  Lean's `%` on `ℤ` is `Int.emod`, which agrees with Python's `%` for a
  positive modulus.
* The environment seen by one evaluation run is a function
  `env : ℕ → ℕ → ℚ × Bool`: `env i k` is the `(reward, done)` pair produced by
  `env.step` at within-episode step `k` of episode `i` (observations and
  actions only flow between the external agent and environment, so they are
  elided; the agent/explorer action choice is absorbed into `env`).
* The `while` loop of `eval_performance` can diverge when
  `max_episode_len is None` and the environment never signals `done`, so the
  loop is embedded with explicit fuel and returns `none` when the fuel runs
  out before the loop exits.
-/

/-- One run of the episode `while` loop of `eval_performance`
(`while not (done or t == max_episode_len)`), with explicit fuel.
State: accumulated reward `test_r`, step counter `t`, flag `done`.
Returns `some (test_r, t)` when the loop exits within the fuel,
`none` otherwise.  `cap = none` models `max_episode_len=None`
(the Python comparison `t == None` is always false). -/
def episodeLoop (stepf : ℕ → ℚ × Bool) (cap : Option ℕ) :
    ℕ → ℚ → ℕ → Bool → Option (ℚ × ℕ)
  | 0, test_r, t, done =>
      if done = true ∨ cap = some t then some (test_r, t) else none
  | fuel + 1, test_r, t, done =>
      if done = true ∨ cap = some t then some (test_r, t)
      else
        let s := stepf t
        episodeLoop stepf cap fuel (test_r + s.1) (t + 1) s.2

/-- One evaluation episode: the loop started from `test_r = 0`, `t = 0`,
`done = False`, as in `eval_performance`. -/
def runEpisode (stepf : ℕ → ℚ × Bool) (cap : Option ℕ) (fuel : ℕ) :
    Option (ℚ × ℕ) :=
  episodeLoop stepf cap fuel 0 0 false

/-- The scores appended by the `for i in range(n_runs)` loop of
`eval_performance`, for episodes `i, i+1, ..., i+n-1` (the Python
`float(test_r)` cast is the identity in this model, every reward already
being a `ℚ`). -/
def episodeScoresAux (env : ℕ → ℕ → ℚ × Bool) (cap : Option ℕ) (fuel : ℕ) :
    ℕ → ℕ → Option (List ℚ)
  | _, 0 => some []
  | i, n + 1 =>
      match runEpisode (env i) cap fuel with
      | none => none
      | some p =>
          match episodeScoresAux env cap fuel (i + 1) n with
          | none => none
          | some rest => some (p.1 :: rest)

/-- The list of per-episode scores of `eval_performance`. -/
def episodeScores (env : ℕ → ℕ → ℚ × Bool) (nRuns : ℕ) (cap : Option ℕ)
    (fuel : ℕ) : Option (List ℚ) :=
  episodeScoresAux env cap fuel 0 nRuns

/-- `statistics.mean`: arithmetic mean. -/
def listMean (xs : List ℚ) : ℚ := xs.sum / xs.length

/-- `statistics.median`: middle element of the sorted list for odd length,
average of the two middle elements for even length. -/
def listMedian (xs : List ℚ) : ℚ :=
  let s := xs.mergeSort fun a b => a ≤ b
  if xs.length % 2 = 1 then s.getD (xs.length / 2) 0
  else (s.getD (xs.length / 2 - 1) 0 + s.getD (xs.length / 2) 0) / 2

/-- The square of `statistics.stdev`: the sample variance
`Σ (x - mean)² / (n - 1)`. -/
def sampleVariance (xs : List ℚ) : ℚ :=
  (xs.map fun x => (x - listMean xs) ^ 2).sum / ((xs.length : ℚ) - 1)

/-- The `stdev` value returned by `eval_performance`:
`statistics.stdev(scores)` when `n_runs >= 2`, and the literal `0.` otherwise. -/
noncomputable def evalStdev (xs : List ℚ) : ℝ :=
  if 2 ≤ xs.length then Real.sqrt (sampleVariance xs) else 0

/-- The `(mean, median, stdev)` triple computed at the end of
`eval_performance` from the score list. -/
noncomputable def computeStats (scores : List ℚ) : ℚ × ℚ × ℝ :=
  (listMean scores, listMedian scores, evalStdev scores)

/-- `eval_performance(env, agent, n_runs, max_episode_len, ...)`:
run `n_runs` episodes and return `(mean, median, stdev)` of their scores
(`none` if some episode loop exceeds the fuel). -/
noncomputable def evalPerformance (env : ℕ → ℕ → ℚ × Bool) (nRuns : ℕ)
    (cap : Option ℕ) (fuel : ℕ) : Option (ℚ × ℚ × ℝ) :=
  (episodeScores env nRuns cap fuel).map computeStats

/-- `np.finfo(np.float32).min`, the smallest representable float32:
`-(2 - 2⁻²³) · 2¹²⁷ = -(2²⁴ - 1) · 2¹⁰⁴`. -/
def float32min : ℚ := -((2 ^ 24 - 1) * 2 ^ 104)

/-- The set of values a 32-bit IEEE-754 float can hold: dyadic rationals with
a 24-bit significand.  `AsyncEvaluator` keeps `_max_score` in
`mp.Value('f', ...)`, a C `float` cell; every value read from or stored into
that cell satisfies this predicate.  (The exponent range is left unbounded,
which only enlarges the set, so non-membership proofs remain valid for the
actual type.) -/
def Float32Representable (q : ℚ) : Prop :=
  ∃ m e : ℤ, |m| < 2 ^ 24 ∧ q = (m : ℚ) * 2 ^ e

/-- The header line written to `scores.txt`: the fixed five column names
followed by the names from `agent.get_statistics()`, tab-separated. -/
def headerLine (statNames : List String) : String :=
  String.intercalate "\t"
    (["steps", "elapsed", "mean", "median", "stdev"] ++ statNames)

/-- The line appended to `scores.txt` by `record_stats` for an evaluation at
step `t` with mean score `mean`.  The Python line is the tab-joined `str` of
`(t, elapsed, mean, median, stdev, *custom_values)`; the wall-clock `elapsed`
and the agent's custom statistics are external inputs and the decimal
rendering of floats is not modelled, so the model records the line keyed by
`t` and `mean`. -/
def dataLine (t : ℤ) (mean : ℚ) : String :=
  toString t ++ "\t" ++ toString mean

/-- State of a single-process `Evaluator`: the mutable attributes `max_score`
and `prev_eval_t`, the immutable `eval_interval`, plus the observable side
effects: the lines of `outdir/scores.txt`, the list of checkpoint directories
`outdir/<t>` created by `save_agent` (identified by their step number `t`),
and a count of completed `eval_performance` runs. -/
structure EvaluatorState where
  eval_interval : ℤ
  max_score : ℚ
  prev_eval_t : ℤ
  scoresFile : List String
  checkpoints : List ℤ
  evals : ℕ

/-- `Evaluator.__init__`: `max_score = np.finfo(np.float32).min`,
`prev_eval_t = step_offset - step_offset % eval_interval`, and `scores.txt`
is opened in mode `w` — truncating whatever `priorFile` held — and receives
the single header line built from the agent's statistic names. -/
def Evaluator.init (eval_interval step_offset : ℤ) (statNames : List String)
    (_priorFile : List String) : EvaluatorState :=
  { eval_interval := eval_interval
    max_score := float32min
    prev_eval_t := step_offset - step_offset % eval_interval
    scoresFile := [headerLine statNames]
    checkpoints := []
    evals := 0 }

/-- `Evaluator.evaluate_and_update_max_score`, with the two fallible external
stages made explicit: `evalResult` is the outcome of the `eval_performance`
call (its mean, or the exception it raised — the median, stdev and elapsed
time do not influence any control flow or state) and `recordResult` is the
outcome of the `record_stats` file write.  An exception leaves the earlier
side effects in place and propagates; there is no `try`/`except` in the
source.  On success: the data row is appended, and iff `mean > max_score`
the agent is saved to `outdir/<t>` (via `update_best_model`/`save_agent`)
and `max_score` becomes `mean`.  Returns the mean. -/
def Evaluator.evaluate_and_update_max_scoreE (ε : Type) (s : EvaluatorState)
    (t : ℤ) (evalResult : Except ε ℚ) (recordResult : Except ε Unit) :
    EvaluatorState × Except ε ℚ :=
  match evalResult with
  | Except.error e => (s, Except.error e)
  | Except.ok mean =>
      let s1 := { s with evals := s.evals + 1 }
      match recordResult with
      | Except.error e => (s1, Except.error e)
      | Except.ok _ =>
          let s2 := { s1 with scoresFile := s1.scoresFile ++ [dataLine t mean] }
          if s2.max_score < mean then
            ({ s2 with checkpoints := s2.checkpoints ++ [t],
                       max_score := mean }, Except.ok mean)
          else (s2, Except.ok mean)

/-- `Evaluator.evaluate_if_necessary`: if `t >= prev_eval_t + eval_interval`,
run `evaluate_and_update_max_score`, then set
`prev_eval_t = t - t % eval_interval` and return the score; otherwise return
`None`.  An exception aborts the call before the `prev_eval_t` assignment and
propagates to the caller. -/
def Evaluator.evaluate_if_necessaryE (ε : Type) (s : EvaluatorState) (t : ℤ)
    (evalResult : Except ε ℚ) (recordResult : Except ε Unit) :
    EvaluatorState × Except ε (Option ℚ) :=
  if s.prev_eval_t + s.eval_interval ≤ t then
    match Evaluator.evaluate_and_update_max_scoreE ε s t evalResult recordResult with
    | (s1, Except.error e) => (s1, Except.error e)
    | (s1, Except.ok score) =>
        ({ s1 with prev_eval_t := t - t % s.eval_interval }, Except.ok (some score))
  else (s, Except.ok none)

/-- `Evaluator.evaluate_if_necessary` in the exception-free run, where
`eval_performance` returns `mean` and the file write succeeds. -/
def Evaluator.evaluate_if_necessary (s : EvaluatorState) (t : ℤ) (mean : ℚ) :
    EvaluatorState × Option ℚ :=
  match Evaluator.evaluate_if_necessaryE Empty s t (Except.ok mean) (Except.ok ()) with
  | (s1, Except.ok r) => (s1, r)
  | (_, Except.error e) => e.elim

/-- Shared state of an `AsyncEvaluator`: the three lock-guarded cells
`prev_eval_t` (`mp.Value('l')`), `_max_score` (`mp.Value('f')`) and
`wrote_header` (`mp.Value('b')`), the immutable `eval_interval`, plus the
observable side effects (checkpoints, completed evaluations, and how many
times `write_header` ran).  `max_score` here stands for the value held by the
`_max_score` cell; the float32 narrowing performed by the C `float` cell is
treated separately via `Float32Representable`. -/
structure AsyncEvaluatorState where
  eval_interval : ℤ
  prev_eval_t : ℤ
  max_score : ℚ
  wrote_header : Bool
  headerWrites : ℕ
  checkpoints : List ℤ
  evals : ℕ

/-- `AsyncEvaluator.__init__`: `prev_eval_t = step_offset - step_offset %
eval_interval`, `_max_score = np.finfo(np.float32).min`,
`wrote_header = False`.  `scores.txt` is opened in mode `a` and immediately
closed: the file is created if absent but nothing — in particular no header —
is written. -/
def AsyncEvaluator.init (eval_interval step_offset : ℤ) : AsyncEvaluatorState :=
  { eval_interval := eval_interval
    prev_eval_t := step_offset - step_offset % eval_interval
    max_score := float32min
    wrote_header := false
    headerWrites := 0
    checkpoints := []
    evals := 0 }

/-- `AsyncEvaluator.write_header`: open `scores.txt` in mode `w` and write
the header line.  The model counts these writes. -/
def AsyncEvaluator.write_header (s : AsyncEvaluatorState) : AsyncEvaluatorState :=
  { s with headerWrites := s.headerWrites + 1 }

/-- `AsyncEvaluator.evaluate_and_update_max_score`, staged like the
single-process version.  The max-score update runs under the `_max_score`
lock: iff `mean > _max_score.value`, the agent is saved to `outdir/<t>` and
the cell is set to `mean`. -/
def AsyncEvaluator.evaluate_and_update_max_scoreE (ε : Type)
    (s : AsyncEvaluatorState) (t : ℤ) (evalResult : Except ε ℚ)
    (recordResult : Except ε Unit) : AsyncEvaluatorState × Except ε ℚ :=
  match evalResult with
  | Except.error e => (s, Except.error e)
  | Except.ok mean =>
      let s1 := { s with evals := s.evals + 1 }
      match recordResult with
      | Except.error e => (s1, Except.error e)
      | Except.ok _ =>
          if s1.max_score < mean then
            ({ s1 with checkpoints := s1.checkpoints ++ [t],
                       max_score := mean }, Except.ok mean)
          else (s1, Except.ok mean)

/-- One complete `AsyncEvaluator.evaluate_if_necessary` call (the
interleaved, per-section small-step semantics is `asyncAdvance` below; this
function is the call run without interference).  Under the `prev_eval_t`
lock: if `t >= prev_eval_t + eval_interval`, set `necessary = True` and
`prev_eval_t += eval_interval`.  If necessary, under the `wrote_header`
lock: write the header iff `wrote_header` is unset, then set it; then run
`evaluate_and_update_max_score`.  Exceptions propagate, leaving the already
performed shared-state updates in place. -/
def AsyncEvaluator.evaluate_if_necessaryE (ε : Type) (s : AsyncEvaluatorState)
    (t : ℤ) (evalResult : Except ε ℚ) (recordResult : Except ε Unit) :
    AsyncEvaluatorState × Except ε (Option ℚ) :=
  if s.prev_eval_t + s.eval_interval ≤ t then
    let s1 := { s with prev_eval_t := s.prev_eval_t + s.eval_interval }
    let s2 := if s1.wrote_header then s1
              else { (AsyncEvaluator.write_header s1) with wrote_header := true }
    match AsyncEvaluator.evaluate_and_update_max_scoreE ε s2 t evalResult recordResult with
    | (s3, Except.error e) => (s3, Except.error e)
    | (s3, Except.ok score) => (s3, Except.ok (some score))
  else (s, Except.ok none)

/-- `AsyncEvaluator.evaluate_if_necessary` in the exception-free run. -/
def AsyncEvaluator.evaluate_if_necessary (s : AsyncEvaluatorState) (t : ℤ)
    (mean : ℚ) : AsyncEvaluatorState × Option ℚ :=
  match AsyncEvaluator.evaluate_if_necessaryE Empty s t (Except.ok mean) (Except.ok ()) with
  | (s1, Except.ok r) => (s1, r)
  | (_, Except.error e) => e.elim

/-- `Evaluator.evaluate_and_update_max_score` in the exception-free run. -/
def Evaluator.evaluate_and_update_max_score (s : EvaluatorState) (t : ℤ)
    (mean : ℚ) : EvaluatorState × ℚ :=
  match Evaluator.evaluate_and_update_max_scoreE Empty s t (Except.ok mean) (Except.ok ()) with
  | (s1, Except.ok r) => (s1, r)
  | (_, Except.error e) => e.elim

/-- `AsyncEvaluator.evaluate_and_update_max_score` in the exception-free
run. -/
def AsyncEvaluator.evaluate_and_update_max_score (s : AsyncEvaluatorState)
    (t : ℤ) (mean : ℚ) : AsyncEvaluatorState × ℚ :=
  match AsyncEvaluator.evaluate_and_update_max_scoreE Empty s t (Except.ok mean) (Except.ok ()) with
  | (s1, Except.ok r) => (s1, r)
  | (_, Except.error e) => e.elim

/-- A sequence of `Evaluator.evaluate_if_necessary` calls, each given by the
training step `t` at which it is made and the mean score its evaluation
would produce; returns the final state and the list of returned values. -/
def Evaluator.runCalls (s : EvaluatorState) :
    List (ℤ × ℚ) → EvaluatorState × List (Option ℚ)
  | [] => (s, [])
  | c :: cs =>
      let p := Evaluator.evaluate_if_necessary s c.1 c.2
      let rest := Evaluator.runCalls p.1 cs
      (rest.1, p.2 :: rest.2)

/-- A sequence of `AsyncEvaluator.evaluate_if_necessary` calls, run to
completion one after the other. -/
def AsyncEvaluator.runCalls (s : AsyncEvaluatorState) :
    List (ℤ × ℚ) → AsyncEvaluatorState × List (Option ℚ)
  | [] => (s, [])
  | c :: cs =>
      let p := AsyncEvaluator.evaluate_if_necessary s c.1 c.2
      let rest := AsyncEvaluator.runCalls p.1 cs
      (rest.1, p.2 :: rest.2)

/-- The episode `while` loop with a fallible environment/agent: `stepf t`
either returns the `(reward, done)` pair of step `t` or raises.  A raise
exits the loop immediately — there is no `try`/`except` anywhere in the
module — and `some (Except.error e)` records the escaping exception
(`none` again meaning the fuel ran out). -/
def episodeLoopE (ε : Type) (stepf : ℕ → Except ε (ℚ × Bool)) (cap : Option ℕ) :
    ℕ → ℚ → ℕ → Bool → Option (Except ε (ℚ × ℕ))
  | 0, test_r, t, done =>
      if done = true ∨ cap = some t then some (Except.ok (test_r, t)) else none
  | fuel + 1, test_r, t, done =>
      if done = true ∨ cap = some t then some (Except.ok (test_r, t))
      else
        match stepf t with
        | Except.error e => some (Except.error e)
        | Except.ok s => episodeLoopE ε stepf cap fuel (test_r + s.1) (t + 1) s.2

/-- One evaluation episode against a fallible environment. -/
def runEpisodeE (ε : Type) (stepf : ℕ → Except ε (ℚ × Bool)) (cap : Option ℕ)
    (fuel : ℕ) : Option (Except ε (ℚ × ℕ)) :=
  episodeLoopE ε stepf cap fuel 0 0 false

/-- The three episode rewards of the worked example: episode `i` yields
reward `[1, 3, 2][i]` on its first step and terminates. -/
def exampleEnv : ℕ → ℕ → ℚ × Bool :=
  fun i _ => (([1, 3, 2] : List ℚ).getD i 0, true)

/-!
## Interleaved semantics of `AsyncEvaluator.evaluate_if_necessary`

`evaluate_if_necessary` consists of three atomic sections — the `prev_eval_t`
guarded claim, the `wrote_header` guarded check-and-set, and the body of
`evaluate_and_update_max_score` whose max-score compare-and-set runs under the
`_max_score` lock — separated by unlocked work (the episode rollouts).
Concurrent workers are modelled by a pool of in-flight calls, each at one of
four program points, with a scheduler free to advance any call by one atomic
section at a time.
-/

/-- Program point of one in-flight `evaluate_if_necessary` call:
before the `prev_eval_t` section (`ready`); past it with `necessary = True`
(`claimed`); past the `wrote_header` section (`evaluating`); or returned
(`finished ret`). -/
inductive CallPhase
  | ready
  | claimed
  | evaluating
  | finished (ret : Option ℚ)

/-- `phase.pastHeaderSection` holds for a call that has executed the
`wrote_header` guarded section (a call that finishes with `None` never
reaches it). -/
def CallPhase.pastHeaderSection : CallPhase → Prop
  | CallPhase.evaluating => True
  | CallPhase.finished (some _) => True
  | _ => False

/-- One in-flight call: the step count `t` passed by its worker, the mean its
(unlocked, externally run) evaluation will produce, and its program point. -/
structure AsyncCall where
  t : ℤ
  mean : ℚ
  phase : CallPhase

/-- The shared `AsyncEvaluator` state together with the pool of in-flight
calls. -/
structure AsyncConfig where
  shared : AsyncEvaluatorState
  calls : List AsyncCall

/-- Advance call `i` by one atomic section (no-op when `i` is out of range or
the call has returned).  Each branch transcribes one guarded section of
`evaluate_if_necessary` / `evaluate_and_update_max_score`. -/
def asyncAdvance (cfg : AsyncConfig) (i : ℕ) : AsyncConfig :=
  match cfg.calls[i]? with
  | none => cfg
  | some call =>
    match call.phase with
    | CallPhase.ready =>
        if cfg.shared.prev_eval_t + cfg.shared.eval_interval ≤ call.t then
          { shared := { cfg.shared with
              prev_eval_t := cfg.shared.prev_eval_t + cfg.shared.eval_interval }
            calls := cfg.calls.set i { call with phase := CallPhase.claimed } }
        else
          { cfg with
            calls := cfg.calls.set i { call with phase := CallPhase.finished none } }
    | CallPhase.claimed =>
        if cfg.shared.wrote_header then
          { cfg with
            calls := cfg.calls.set i { call with phase := CallPhase.evaluating } }
        else
          { shared := { (AsyncEvaluator.write_header cfg.shared) with
              wrote_header := true }
            calls := cfg.calls.set i { call with phase := CallPhase.evaluating } }
    | CallPhase.evaluating =>
        let s1 := { cfg.shared with evals := cfg.shared.evals + 1 }
        if s1.max_score < call.mean then
          { shared := { s1 with checkpoints := s1.checkpoints ++ [call.t],
                                max_score := call.mean }
            calls := cfg.calls.set i
              { call with phase := CallPhase.finished (some call.mean) } }
        else
          { shared := s1
            calls := cfg.calls.set i
              { call with phase := CallPhase.finished (some call.mean) } }
    | CallPhase.finished _ => cfg

/-- Initial configuration: a freshly constructed `AsyncEvaluator` and one
not-yet-started call per element of `pending` (its `t` and the mean its
evaluation would yield). -/
def initAsyncConfig (eval_interval step_offset : ℤ) (pending : List (ℤ × ℚ)) :
    AsyncConfig :=
  { shared := AsyncEvaluator.init eval_interval step_offset
    calls := pending.map fun p =>
      { t := p.1, mean := p.2, phase := CallPhase.ready } }

/-- Configurations reachable by letting the scheduler advance arbitrary calls
in arbitrary order. -/
inductive AsyncReachable : AsyncConfig → AsyncConfig → Prop
  | refl (c : AsyncConfig) : AsyncReachable c c
  | step (c c' : AsyncConfig) (i : ℕ) :
      AsyncReachable c c' → AsyncReachable c (asyncAdvance c' i)

/-- The header-writing invariant: the header has been written at most once,
`wrote_header` records exactly whether it has been written, and every call
past the `wrote_header` section has observed it written. -/
def HeaderInv (cfg : AsyncConfig) : Prop :=
  cfg.shared.headerWrites ≤ 1 ∧
  (cfg.shared.wrote_header = true ↔ cfg.shared.headerWrites = 1) ∧
  ∀ call ∈ cfg.calls, call.phase.pastHeaderSection →
    cfg.shared.wrote_header = true

lemma episodeLoop_capped (stepf : ℕ → ℚ × Bool) (n : ℕ) :
    ∀ (fuel t : ℕ) (r : ℚ) (d : Bool), t ≤ n → n ≤ t + fuel →
      ∃ k, t ≤ k ∧ k ≤ n ∧
        episodeLoop stepf (some n) fuel r t d =
          some (r + ∑ i in Finset.Ico t k, (stepf i).1, k) := by
  intro fuel
  induction fuel with
  | zero =>
    intro t r d hle hge
    have ht : t = n := le_antisymm hle (by omega)
    refine ⟨t, le_refl t, le_of_eq ht, ?_⟩
    simp [episodeLoop, ht]
  | succ fuel ih =>
    intro t r d hle hge
    cases d with
    | true =>
      refine ⟨t, le_refl t, hle, ?_⟩
      simp [episodeLoop]
    | false =>
      by_cases ht : t = n
      · refine ⟨t, le_refl t, hle, ?_⟩
        simp [episodeLoop, ht]
      · have htlt : t < n := lt_of_le_of_ne hle ht
        obtain ⟨k, hk1, hk2, hk3⟩ :=
          ih (t + 1) (r + (stepf t).1) (stepf t).2 (by omega) (by omega)
        refine ⟨k, by omega, hk2, ?_⟩
        rw [episodeLoop]
        have hcond : ¬ (false = true ∨ (some n : Option ℕ) = some t) := by
          simp [Ne.symm ht]
        rw [if_neg hcond, hk3]
        have hsum : ∑ i in Finset.Ico t k, (stepf i).1 =
            (stepf t).1 + ∑ i in Finset.Ico (t + 1) k, (stepf i).1 :=
          Finset.sum_eq_sum_Ico_succ_bot (by omega) _
        rw [hsum]
        ring_nf

lemma runEpisode_capped (stepf : ℕ → ℚ × Bool) (n : ℕ) :
    ∃ k, k ≤ n ∧
      runEpisode stepf (some n) n =
        some (∑ i in Finset.range k, (stepf i).1, k) := by
  obtain ⟨k, _, hk2, hk3⟩ :=
    episodeLoop_capped stepf n n 0 0 false (Nat.zero_le n) (by omega)
  refine ⟨k, hk2, ?_⟩
  rw [runEpisode, hk3, Finset.range_eq_Ico]
  norm_num

lemma episodeLoop_uncapped_done (stepf : ℕ → ℚ × Bool) (j : ℕ)
    (hj : (stepf j).2 = true) (hmin : ∀ i, i < j → (stepf i).2 = false) :
    ∀ (fuel t : ℕ) (r : ℚ), t ≤ j → fuel = j + 1 - t →
      episodeLoop stepf none fuel r t false =
        some (r + ∑ i in Finset.Ico t (j + 1), (stepf i).1, j + 1) := by
  intro fuel
  induction fuel with
  | zero => intro t r hle hfuel; omega
  | succ fuel ih =>
    intro t r hle hfuel
    rw [episodeLoop]
    have hcond : ¬ (false = true ∨ (none : Option ℕ) = some t) := by simp
    rw [if_neg hcond]
    have hsum : ∑ i in Finset.Ico t (j + 1), (stepf i).1 =
        (stepf t).1 + ∑ i in Finset.Ico (t + 1) (j + 1), (stepf i).1 :=
      Finset.sum_eq_sum_Ico_succ_bot (by omega) _
    show episodeLoop stepf none fuel (r + (stepf t).1) (t + 1) (stepf t).2 =
      some (r + ∑ i in Finset.Ico t (j + 1), (stepf i).1, j + 1)
    by_cases ht : t = j
    · subst ht
      have hfuel0 : fuel = 0 := by omega
      subst hfuel0
      rw [hj, episodeLoop]
      rw [if_pos (Or.inl rfl)]
      rw [hsum]
      have : Finset.Ico (t + 1) (t + 1) = ∅ := Finset.Ico_self (t + 1)
      rw [this, Finset.sum_empty]
      ring_nf
    · have htlt : t < j := lt_of_le_of_ne hle ht
      rw [hmin t htlt]
      rw [ih (t + 1) (r + (stepf t).1) (by omega) (by omega)]
      rw [hsum]
      ring_nf

lemma runEpisode_uncapped_done (stepf : ℕ → ℚ × Bool) (j : ℕ)
    (hj : (stepf j).2 = true) (hmin : ∀ i, i < j → (stepf i).2 = false) :
    runEpisode stepf none (j + 1) =
      some (∑ i in Finset.range (j + 1), (stepf i).1, j + 1) := by
  rw [runEpisode,
    episodeLoop_uncapped_done stepf j hj hmin (j + 1) 0 0 (Nat.zero_le j) (by omega),
    Finset.range_eq_Ico]
  norm_num

lemma episodeLoop_uncapped_nodone (stepf : ℕ → ℚ × Bool)
    (hnever : ∀ i, (stepf i).2 = false) :
    ∀ (fuel t : ℕ) (r : ℚ), episodeLoop stepf none fuel r t false = none := by
  intro fuel
  induction fuel with
  | zero => intro t r; simp [episodeLoop]
  | succ fuel ih =>
    intro t r
    rw [episodeLoop]
    have hcond : ¬ (false = true ∨ (none : Option ℕ) = some t) := by simp
    rw [if_neg hcond]
    show episodeLoop stepf none fuel (r + (stepf t).1) (t + 1) (stepf t).2 = none
    rw [hnever t]
    exact ih (t + 1) (r + (stepf t).1)

lemma mem_of_getElem_some {α : Type} {l : List α} {i : ℕ} {a : α}
    (h : l[i]? = some a) : a ∈ l := by
  obtain ⟨hi, rfl⟩ := List.getElem?_eq_some.mp h
  exact List.getElem_mem hi

lemma headerInv_advance (cfg : AsyncConfig) (i : ℕ) (h : HeaderInv cfg) :
    HeaderInv (asyncAdvance cfg i) := by
  obtain ⟨h1, h2, h3⟩ := h
  unfold asyncAdvance
  cases hget : cfg.calls[i]? with
  | none => exact ⟨h1, h2, h3⟩
  | some call =>
    have hmemcall : call ∈ cfg.calls := mem_of_getElem_some hget
    cases hph : call.phase with
    | ready =>
      by_cases hdue : cfg.shared.prev_eval_t + cfg.shared.eval_interval ≤ call.t
      · simp only [hph, hdue, if_pos]
        refine ⟨h1, h2, fun c hc hpast => ?_⟩
        rcases List.mem_or_eq_of_mem_set hc with hmem | rfl
        · exact h3 c hmem hpast
        · simp [CallPhase.pastHeaderSection] at hpast
      · simp only [hph, hdue, if_neg, not_false_iff]
        refine ⟨h1, h2, fun c hc hpast => ?_⟩
        rcases List.mem_or_eq_of_mem_set hc with hmem | rfl
        · exact h3 c hmem hpast
        · simp [CallPhase.pastHeaderSection] at hpast
    | claimed =>
      by_cases hw : cfg.shared.wrote_header
      · simp only [hph, hw, if_pos]
        refine ⟨h1, h2, fun c hc hpast => ?_⟩
        exact hw
      · simp only [Bool.not_eq_true] at hw
        have hzero : cfg.shared.headerWrites = 0 := by
          have hne : ¬ cfg.shared.headerWrites = 1 := fun hh => by
            have hcontra := h2.mpr hh
            rw [hw] at hcontra
            exact Bool.false_ne_true hcontra
          omega
        simp only [hph, hw, Bool.false_eq_true, if_neg, not_false_iff]
        refine ⟨?_, ?_, fun c hc hpast => rfl⟩
        · simp [AsyncEvaluator.write_header, hzero]
        · simp [AsyncEvaluator.write_header, hzero]
    | evaluating =>
      have hwt : cfg.shared.wrote_header = true := by
        refine h3 call hmemcall ?_
        rw [hph]; trivial
      by_cases hlt : cfg.shared.max_score < call.mean
      · simp only [hph, hlt, if_pos]
        exact ⟨h1, h2, fun c hc hpast => hwt⟩
      · simp only [hph, hlt, if_neg, not_false_iff]
        exact ⟨h1, h2, fun c hc hpast => hwt⟩
    | finished ret =>
      simp only [hph]
      exact ⟨h1, h2, h3⟩

lemma headerInv_init (eval_interval step_offset : ℤ) (pending : List (ℤ × ℚ)) :
    HeaderInv (initAsyncConfig eval_interval step_offset pending) := by
  refine ⟨by simp [initAsyncConfig, AsyncEvaluator.init], ?_, ?_⟩
  · simp [initAsyncConfig, AsyncEvaluator.init]
  · intro c hc hpast
    simp only [initAsyncConfig, List.mem_map] at hc
    obtain ⟨p, hp, rfl⟩ := hc
    simp [CallPhase.pastHeaderSection] at hpast

lemma headerInv_reachable (c₀ cfg : AsyncConfig) (h0 : HeaderInv c₀)
    (h : AsyncReachable c₀ cfg) : HeaderInv cfg := by
  induction h with
  | refl => exact h0
  | step c' i hr ih => exact headerInv_advance c' i ih

/-!
## Claim theorems
-/

/-- **C2.** For both `Evaluator` and `AsyncEvaluator`, after an evaluation
the agent is checkpointed (a directory `outdir/<t>`, named after the step
count, is appended to the checkpoint list) iff the newly computed mean is
strictly greater than the recorded `max_score`; an equal mean triggers
nothing, and `max_score` is updated to the mean exactly when the checkpoint
occurs. -/
theorem checkpoint_iff_strict_improvement :
    (∀ (s : EvaluatorState) (t : ℤ) (mean : ℚ),
      ((Evaluator.evaluate_and_update_max_score s t mean).1).checkpoints =
        (if s.max_score < mean then s.checkpoints ++ [t] else s.checkpoints) ∧
      ((Evaluator.evaluate_and_update_max_score s t mean).1).max_score =
        (if s.max_score < mean then mean else s.max_score) ∧
      (((Evaluator.evaluate_and_update_max_score s t mean).1).checkpoints ≠
          s.checkpoints ↔ s.max_score < mean)) ∧
    (∀ (s : AsyncEvaluatorState) (t : ℤ) (mean : ℚ),
      ((AsyncEvaluator.evaluate_and_update_max_score s t mean).1).checkpoints =
        (if s.max_score < mean then s.checkpoints ++ [t] else s.checkpoints) ∧
      ((AsyncEvaluator.evaluate_and_update_max_score s t mean).1).max_score =
        (if s.max_score < mean then mean else s.max_score) ∧
      (((AsyncEvaluator.evaluate_and_update_max_score s t mean).1).checkpoints ≠
          s.checkpoints ↔ s.max_score < mean)) := by
  constructor
  · intro s t mean
    unfold Evaluator.evaluate_and_update_max_score
      Evaluator.evaluate_and_update_max_scoreE
    by_cases h2 : s.max_score < mean <;> simp [h2]
  · intro s t mean
    unfold AsyncEvaluator.evaluate_and_update_max_score
      AsyncEvaluator.evaluate_and_update_max_scoreE
    by_cases h2 : s.max_score < mean <;> simp [h2]

/-- **C3.** For both `Evaluator` and `AsyncEvaluator`,
`evaluate_if_necessary` returns `None` — and runs no evaluation — when
`t < prev_eval_t + eval_interval`, and returns the mean score of the one
evaluation it performs when `t >= prev_eval_t + eval_interval`. -/
theorem evaluate_if_necessary_return_spec :
    (∀ (s : EvaluatorState) (t : ℤ) (mean : ℚ),
      (Evaluator.evaluate_if_necessary s t mean).2 =
        (if s.prev_eval_t + s.eval_interval ≤ t then some mean else none) ∧
      ((Evaluator.evaluate_if_necessary s t mean).1).evals =
        (if s.prev_eval_t + s.eval_interval ≤ t then s.evals + 1 else s.evals)) ∧
    (∀ (s : AsyncEvaluatorState) (t : ℤ) (mean : ℚ),
      (AsyncEvaluator.evaluate_if_necessary s t mean).2 =
        (if s.prev_eval_t + s.eval_interval ≤ t then some mean else none) ∧
      ((AsyncEvaluator.evaluate_if_necessary s t mean).1).evals =
        (if s.prev_eval_t + s.eval_interval ≤ t then s.evals + 1 else s.evals)) := by
  constructor
  · intro s t mean
    unfold Evaluator.evaluate_if_necessary Evaluator.evaluate_if_necessaryE
      Evaluator.evaluate_and_update_max_scoreE
    split_ifs with h1
    · by_cases h2 : s.max_score < mean <;> simp [h2]
    · simp
  · intro s t mean
    unfold AsyncEvaluator.evaluate_if_necessary AsyncEvaluator.evaluate_if_necessaryE
      AsyncEvaluator.evaluate_and_update_max_scoreE AsyncEvaluator.write_header
    split_ifs with h1
    · by_cases hw : s.wrote_header <;>
        by_cases h2 : s.max_score < mean <;> simp [hw, h2]
    · simp

/-- **C9.** After the `Evaluator` constructor runs, `outdir/scores.txt`
contains exactly one line — the tab-separated header `steps, elapsed, mean,
median, stdev` followed by the agent's statistic names in declared order —
whatever the file held before. -/
theorem init_writes_single_header :
    ∀ (eval_interval step_offset : ℤ) (statNames priorFile : List String),
      (Evaluator.init eval_interval step_offset statNames priorFile).scoresFile =
        [String.intercalate "\t"
          (["steps", "elapsed", "mean", "median", "stdev"] ++ statNames)] := by
  intro eval_interval step_offset statNames priorFile
  rfl

/-- **C10.** For every `eval_interval > 0`, in both variants `prev_eval_t`
is an exact multiple of `eval_interval` at construction and after every
`evaluate_if_necessary` call, though the update rules differ
(`t - t % eval_interval` versus `+= eval_interval`). -/
theorem prev_eval_t_multiple_invariant :
    ∀ eval_interval : ℤ, 0 < eval_interval →
      (∀ (step_offset : ℤ) (statNames priorFile : List String),
        eval_interval ∣
          (Evaluator.init eval_interval step_offset statNames priorFile).prev_eval_t) ∧
      (∀ (s : EvaluatorState) (t : ℤ) (mean : ℚ), s.eval_interval = eval_interval →
        eval_interval ∣ s.prev_eval_t →
        eval_interval ∣ ((Evaluator.evaluate_if_necessary s t mean).1).prev_eval_t) ∧
      (∀ step_offset : ℤ,
        eval_interval ∣ (AsyncEvaluator.init eval_interval step_offset).prev_eval_t) ∧
      (∀ (s : AsyncEvaluatorState) (t : ℤ) (mean : ℚ), s.eval_interval = eval_interval →
        eval_interval ∣ s.prev_eval_t →
        eval_interval ∣ ((AsyncEvaluator.evaluate_if_necessary s t mean).1).prev_eval_t) := by
  intro eval_interval _hpos
  have halign : ∀ u : ℤ, eval_interval ∣ (u - u % eval_interval) := by
    intro u
    refine ⟨u / eval_interval, ?_⟩
    have h := Int.ediv_add_emod u eval_interval
    linarith
  refine ⟨?_, ?_, ?_, ?_⟩
  · intro step_offset statNames priorFile
    exact halign step_offset
  · intro s t mean hs hdvd
    unfold Evaluator.evaluate_if_necessary Evaluator.evaluate_if_necessaryE
      Evaluator.evaluate_and_update_max_scoreE
    split_ifs with h1
    · by_cases h2 : s.max_score < mean <;> simp [h2] <;> (rw [hs]; exact halign t)
    · simpa using hdvd
  · intro step_offset
    exact halign step_offset
  · intro s t mean hs hdvd
    unfold AsyncEvaluator.evaluate_if_necessary AsyncEvaluator.evaluate_if_necessaryE
      AsyncEvaluator.evaluate_and_update_max_scoreE AsyncEvaluator.write_header
    split_ifs with h1
    · by_cases hw : s.wrote_header <;> by_cases h2 : s.max_score < mean <;>
        simp [hw, h2] <;> (rw [hs]; exact dvd_add hdvd dvd_rfl)
    · simpa using hdvd

/-- **C1, counterexample.** A fresh `AsyncEvaluator` (eval_interval=100,
step_offset=0, so `prev_eval_t = 0`) called at `t = 250` performs an
evaluation but sets `prev_eval_t` to `0 + 100 = 100`, not to
`t - t % eval_interval = 200`: the `AsyncEvaluator` update rule is
`prev_eval_t += eval_interval`, not grid alignment. -/
theorem async_prev_eval_t_not_aligned :
    ((AsyncEvaluator.evaluate_if_necessary
        (AsyncEvaluator.init 100 0) 250 0).1).prev_eval_t ≠ 250 - 250 % 100 := by
  unfold AsyncEvaluator.evaluate_if_necessary AsyncEvaluator.evaluate_if_necessaryE
    AsyncEvaluator.evaluate_and_update_max_scoreE AsyncEvaluator.write_header
    AsyncEvaluator.init
  norm_num [float32min]

/-- **C1, amended.** Whenever `evaluate_if_necessary` is called with
`t >= prev_eval_t + eval_interval` it performs exactly one evaluation; the
`Evaluator` then advances `prev_eval_t` to `t - t % eval_interval` (grid
alignment) whereas the `AsyncEvaluator` advances it by exactly
`eval_interval`.  In the scenario eval_interval=100, step_offset=0, calls at
t = 50, 100, 150, 250, the two rules coincide: both variants return
no-op, evaluation, no-op, evaluation, with `prev_eval_t = 100` after the
call at t=100 and `prev_eval_t = 200` after the call at t=250. -/
theorem prev_update_rules :
    (∀ (s : EvaluatorState) (t : ℤ) (mean : ℚ),
      s.prev_eval_t + s.eval_interval ≤ t →
      ((Evaluator.evaluate_if_necessary s t mean).1).prev_eval_t =
          t - t % s.eval_interval ∧
      ((Evaluator.evaluate_if_necessary s t mean).1).evals = s.evals + 1) ∧
    (∀ (s : AsyncEvaluatorState) (t : ℤ) (mean : ℚ),
      s.prev_eval_t + s.eval_interval ≤ t →
      ((AsyncEvaluator.evaluate_if_necessary s t mean).1).prev_eval_t =
          s.prev_eval_t + s.eval_interval ∧
      ((AsyncEvaluator.evaluate_if_necessary s t mean).1).evals = s.evals + 1) ∧
    (Evaluator.runCalls (Evaluator.init 100 0 [] [])
        [(50, 1), (100, 1), (150, 1), (250, 1)]).2 =
      [none, some 1, none, some 1] ∧
    ((Evaluator.runCalls (Evaluator.init 100 0 [] [])
        [(50, 1), (100, 1)]).1).prev_eval_t = 100 ∧
    ((Evaluator.runCalls (Evaluator.init 100 0 [] [])
        [(50, 1), (100, 1), (150, 1), (250, 1)]).1).prev_eval_t = 200 ∧
    (AsyncEvaluator.runCalls (AsyncEvaluator.init 100 0)
        [(50, 1), (100, 1), (150, 1), (250, 1)]).2 =
      [none, some 1, none, some 1] ∧
    ((AsyncEvaluator.runCalls (AsyncEvaluator.init 100 0)
        [(50, 1), (100, 1)]).1).prev_eval_t = 100 ∧
    ((AsyncEvaluator.runCalls (AsyncEvaluator.init 100 0)
        [(50, 1), (100, 1), (150, 1), (250, 1)]).1).prev_eval_t = 200 := by
  refine ⟨?_, ?_, ?_, ?_, ?_, ?_, ?_, ?_⟩
  · intro s t mean h1
    unfold Evaluator.evaluate_if_necessary Evaluator.evaluate_if_necessaryE
      Evaluator.evaluate_and_update_max_scoreE
    rw [if_pos h1]
    by_cases h2 : s.max_score < mean <;> simp [h2]
  · intro s t mean h1
    unfold AsyncEvaluator.evaluate_if_necessary AsyncEvaluator.evaluate_if_necessaryE
      AsyncEvaluator.evaluate_and_update_max_scoreE AsyncEvaluator.write_header
    rw [if_pos h1]
    by_cases hw : s.wrote_header <;> by_cases h2 : s.max_score < mean <;>
      simp [hw, h2]
  all_goals
    simp only [Evaluator.runCalls, AsyncEvaluator.runCalls,
      Evaluator.evaluate_if_necessary, Evaluator.evaluate_if_necessaryE,
      Evaluator.evaluate_and_update_max_scoreE,
      AsyncEvaluator.evaluate_if_necessary, AsyncEvaluator.evaluate_if_necessaryE,
      AsyncEvaluator.evaluate_and_update_max_scoreE, AsyncEvaluator.write_header,
      Evaluator.init, AsyncEvaluator.init]
    norm_num [float32min]

/-- Witness for `prev_update_rules`: the general clauses applied to a fresh
state of each variant, called at `t = 100`. -/
theorem prev_update_rules_witness :
    (((Evaluator.init 100 0 [] []).prev_eval_t +
        (Evaluator.init 100 0 [] []).eval_interval ≤ 100) ∧
      ((Evaluator.evaluate_if_necessary
          (Evaluator.init 100 0 [] []) 100 5).1).prev_eval_t =
        100 - 100 % (Evaluator.init 100 0 [] []).eval_interval ∧
      ((Evaluator.evaluate_if_necessary
          (Evaluator.init 100 0 [] []) 100 5).1).evals =
        (Evaluator.init 100 0 [] []).evals + 1) ∧
    (((AsyncEvaluator.init 100 0).prev_eval_t +
        (AsyncEvaluator.init 100 0).eval_interval ≤ 100) ∧
      ((AsyncEvaluator.evaluate_if_necessary
          (AsyncEvaluator.init 100 0) 100 5).1).prev_eval_t =
        (AsyncEvaluator.init 100 0).prev_eval_t +
          (AsyncEvaluator.init 100 0).eval_interval ∧
      ((AsyncEvaluator.evaluate_if_necessary
          (AsyncEvaluator.init 100 0) 100 5).1).evals =
        (AsyncEvaluator.init 100 0).evals + 1) := by
  have hdueE : (Evaluator.init 100 0 [] []).prev_eval_t +
      (Evaluator.init 100 0 [] []).eval_interval ≤ 100 := by
    norm_num [Evaluator.init]
  have hdueA : (AsyncEvaluator.init 100 0).prev_eval_t +
      (AsyncEvaluator.init 100 0).eval_interval ≤ 100 := by
    norm_num [AsyncEvaluator.init]
  exact ⟨⟨hdueE, prev_update_rules.1 (Evaluator.init 100 0 [] []) 100 5 hdueE⟩,
         ⟨hdueA, prev_update_rules.2.1 (AsyncEvaluator.init 100 0) 100 5 hdueA⟩⟩

/-- Witness for `prev_eval_t_multiple_invariant`: eval_interval 100,
step_offset 30, one due call at t = 250, for both variants. -/
theorem prev_eval_t_multiple_invariant_witness :
    (0 : ℤ) < 100 ∧
    (100 : ℤ) ∣ (Evaluator.init 100 30 [] []).prev_eval_t ∧
    (100 : ℤ) ∣ ((Evaluator.evaluate_if_necessary
        (Evaluator.init 100 30 [] []) 250 5).1).prev_eval_t ∧
    (100 : ℤ) ∣ (AsyncEvaluator.init 100 30).prev_eval_t ∧
    (100 : ℤ) ∣ ((AsyncEvaluator.evaluate_if_necessary
        (AsyncEvaluator.init 100 30) 250 5).1).prev_eval_t := by
  have h := prev_eval_t_multiple_invariant 100 (by norm_num)
  have h1 := h.1 30 [] []
  have h2 := h.2.2.1 30
  exact ⟨by norm_num, h1,
    h.2.1 (Evaluator.init 100 30 [] []) 250 5 rfl h1, h2,
    h.2.2.2 (AsyncEvaluator.init 100 30) 250 5 rfl h2⟩

/-- **C4.** `eval_performance` returns the arithmetic mean, the median, and
the sample standard deviation of the per-episode scores, with `stdev`
exactly 0 whenever `n_runs < 2`; on scores `[1, 3, 2]` (produced here by
three one-step episodes) it returns mean 2, median 2, sample stdev 1. -/
theorem eval_performance_stats :
    (∀ xs : List ℚ, xs.length < 2 → evalStdev xs = 0) ∧
    (∀ xs : List ℚ, 2 ≤ xs.length →
      evalStdev xs ^ 2 = ((sampleVariance xs : ℚ) : ℝ) ∧ 0 ≤ evalStdev xs) ∧
    evalPerformance exampleEnv 3 none 1 = some (2, 2, 1) := by
  refine ⟨?_, ?_, ?_⟩
  · intro xs h
    rw [evalStdev, if_neg (by omega)]
  · intro xs h
    have hvar : 0 ≤ sampleVariance xs := by
      rw [sampleVariance]
      apply div_nonneg
      · apply List.sum_nonneg
        intro x hx
        obtain ⟨y, hy, rfl⟩ := List.mem_map.mp hx
        positivity
      · have h2 : (2 : ℚ) ≤ xs.length := by exact_mod_cast h
        linarith
    rw [evalStdev, if_pos h]
    refine ⟨Real.sq_sqrt (by exact_mod_cast hvar), Real.sqrt_nonneg _⟩
  · have hscores : episodeScores exampleEnv 3 none 1 = some [1, 3, 2] := by
      simp [episodeScores, episodeScoresAux, runEpisode, episodeLoop, exampleEnv]
    rw [evalPerformance, hscores]
    show some (computeStats [1, 3, 2]) = some (2, 2, 1)
    rw [computeStats]
    have hmean : listMean [1, 3, 2] = 2 := by norm_num [listMean]
    have hmedian : listMedian [1, 3, 2] = 2 := by
      norm_num [listMedian, List.mergeSort]
    have hvar : sampleVariance [1, 3, 2] = 1 := by
      norm_num [sampleVariance, listMean]
    have hstdev : evalStdev [1, 3, 2] = 1 := by
      rw [evalStdev, if_pos (by norm_num), hvar]
      norm_num
    rw [hmean, hmedian, hstdev]

/-- Witness for `eval_performance_stats`: a singleton score list has stdev 0,
and on `[1, 3, 2]` the stdev squares to the sample variance. -/
theorem eval_performance_stats_witness :
    evalStdev [(5 : ℚ)] = 0 ∧
    evalStdev [1, 3, 2] ^ 2 = ((sampleVariance [1, 3, 2] : ℚ) : ℝ) :=
  ⟨eval_performance_stats.1 [(5 : ℚ)] (by simp),
   (eval_performance_stats.2.1 [1, 3, 2] (by simp)).1⟩

/-- **C5, counterexample.** `16777217 = 2²⁴ + 1` is exactly representable as
a 64-bit float (so it can be the exactly computed mean of an evaluation, e.g.
of a single episode with that integer total reward), but it is not
representable in the 32-bit C `float` cell `mp.Value('f', ...)` in which
`AsyncEvaluator` stores `_max_score`: after `self._max_score.value = mean`
the accessor cannot return `16777217` exactly, refuting both "max_score is a
float64" and "the stored max_score equals the newly computed mean exactly". -/
theorem max_score_cell_not_float64 :
    ¬ Float32Representable ((16777217 : ℚ)) := by
  rintro ⟨m, e, hm, heq⟩
  rcases le_or_lt 0 e with he | he
  · lift e to ℕ using he with k
    rw [zpow_natCast] at heq
    have heqz : (16777217 : ℤ) = m * 2 ^ k := by exact_mod_cast heq
    rcases Nat.eq_zero_or_pos k with hk | hk
    · subst hk
      simp only [pow_zero, mul_one] at heqz
      rw [← heqz] at hm
      norm_num at hm
    · have h2 : (2 : ℤ) ∣ 16777217 := by
        rw [heqz]
        exact Dvd.dvd.mul_left (dvd_pow_self 2 (by omega)) m
      norm_num at h2
  · set k : ℕ := (-e).toNat with hkdef
    have hk1 : 1 ≤ k := by omega
    have he' : e = -(k : ℤ) := by omega
    rw [he', zpow_neg, zpow_natCast] at heq
    have hpow : (0 : ℚ) < 2 ^ k := by positivity
    have heq2 : (m : ℚ) = 16777217 * 2 ^ k := by
      field_simp at heq
      linarith
    have heqz : m = 16777217 * 2 ^ k := by exact_mod_cast heq2
    have hge : (2 : ℤ) ≤ 2 ^ k := by
      calc (2 : ℤ) = 2 ^ 1 := by norm_num
      _ ≤ 2 ^ k := pow_le_pow_right₀ (by norm_num) hk1
    rw [heqz, abs_of_nonneg (by positivity)] at hm
    nlinarith

/-- **C5, amended.** In both variants `max_score` is initialized to the
smallest representable float32 value (`np.finfo(np.float32).min`, itself
float32-representable).  The single-process `Evaluator` keeps `max_score` as
a Python attribute, so after a best-score update it equals the newly computed
mean exactly.  The `AsyncEvaluator` stores it in a 32-bit `mp.Value('f')`
cell — not a float64 — whose contents are always `Float32Representable`, so
its accessor returns the mean exactly only when the mean is
float32-representable (see `max_score_cell_not_float64`). -/
theorem max_score_init_and_update :
    (∀ (eval_interval step_offset : ℤ) (statNames priorFile : List String),
      (Evaluator.init eval_interval step_offset statNames priorFile).max_score =
        float32min) ∧
    (∀ eval_interval step_offset : ℤ,
      (AsyncEvaluator.init eval_interval step_offset).max_score = float32min) ∧
    Float32Representable float32min ∧
    (∀ (s : EvaluatorState) (t : ℤ) (mean : ℚ), s.max_score < mean →
      ((Evaluator.evaluate_and_update_max_score s t mean).1).max_score = mean) := by
  refine ⟨fun _ _ _ _ => rfl, fun _ _ => rfl,
    ⟨-(2 ^ 24 - 1), 104, by norm_num, by norm_num [float32min]⟩, ?_⟩
  intro s t mean h
  unfold Evaluator.evaluate_and_update_max_score
    Evaluator.evaluate_and_update_max_scoreE
  simp [h]

/-- Witness for `max_score_init_and_update`: a fresh `Evaluator` updated with
mean 5 stores exactly 5. -/
theorem max_score_init_and_update_witness :
    (Evaluator.init 100 0 [] []).max_score < 5 ∧
    ((Evaluator.evaluate_and_update_max_score
        (Evaluator.init 100 0 [] []) 100 5).1).max_score = 5 := by
  have h : (Evaluator.init 100 0 [] []).max_score < 5 := by
    norm_num [Evaluator.init, float32min]
  exact ⟨h, max_score_init_and_update.2.2.2 (Evaluator.init 100 0 [] []) 100 5 h⟩

/-- **C6.** The `AsyncEvaluator` never writes the header at construction
(`headerWrites = 0` initially); in every reachable interleaving of
concurrent `evaluate_if_necessary` calls the header has been written at most
once, `wrote_header` is set exactly when it has been written, and every call
that got past the `wrote_header` guarded check-and-set — the winner that
wrote it, and every later caller, which observes the flag set and skips the
write — has seen it written. -/
theorem header_written_at_most_once :
    ∀ (eval_interval step_offset : ℤ) (pending : List (ℤ × ℚ)) (cfg : AsyncConfig),
      AsyncReachable (initAsyncConfig eval_interval step_offset pending) cfg →
      (initAsyncConfig eval_interval step_offset pending).shared.headerWrites = 0 ∧
      cfg.shared.headerWrites ≤ 1 ∧
      (cfg.shared.wrote_header = true ↔ cfg.shared.headerWrites = 1) ∧
      ∀ call ∈ cfg.calls, call.phase.pastHeaderSection →
        cfg.shared.headerWrites = 1 := by
  intro eval_interval step_offset pending cfg h
  have hinv := headerInv_reachable _ _
    (headerInv_init eval_interval step_offset pending) h
  exact ⟨rfl, hinv.1, hinv.2.1,
    fun c hc hp => (hinv.2.1).mp (hinv.2.2 c hc hp)⟩

/-- Witness for `header_written_at_most_once`: a single call at t = 100 on a
fresh evaluator (eval_interval 100, step_offset 0), scheduled through its
three sections. -/
theorem header_written_at_most_once_witness :
    (initAsyncConfig 100 0 [(100, 5)]).shared.headerWrites = 0 ∧
    (asyncAdvance (asyncAdvance (asyncAdvance
        (initAsyncConfig 100 0 [(100, 5)]) 0) 0) 0).shared.headerWrites ≤ 1 ∧
    ((asyncAdvance (asyncAdvance (asyncAdvance
        (initAsyncConfig 100 0 [(100, 5)]) 0) 0) 0).shared.wrote_header = true ↔
      (asyncAdvance (asyncAdvance (asyncAdvance
        (initAsyncConfig 100 0 [(100, 5)]) 0) 0) 0).shared.headerWrites = 1) ∧
    ∀ call ∈ (asyncAdvance (asyncAdvance (asyncAdvance
        (initAsyncConfig 100 0 [(100, 5)]) 0) 0) 0).calls,
      call.phase.pastHeaderSection →
      (asyncAdvance (asyncAdvance (asyncAdvance
        (initAsyncConfig 100 0 [(100, 5)]) 0) 0) 0).shared.headerWrites = 1 :=
  header_written_at_most_once 100 0 [(100, 5)] _
    (AsyncReachable.step _ _ 0 (AsyncReachable.step _ _ 0
      (AsyncReachable.step _ _ 0 (AsyncReachable.refl _))))

/-- **C7.** With `max_episode_len = n`, the episode loop of
`eval_performance` terminates within `n` environment steps (fuel `n`
suffices), taking some `k ≤ n` steps whose rewards sum to the episode score;
with `max_episode_len = None` the loop runs with no step cap: it stops right
after the first step whose `done` is true — scoring all steps up to and
including it — and never exits if `done` never arrives. -/
theorem episode_loop_bounds :
    (∀ (stepf : ℕ → ℚ × Bool) (n : ℕ),
      ∃ k, k ≤ n ∧ runEpisode stepf (some n) n =
        some (∑ i in Finset.range k, (stepf i).1, k)) ∧
    (∀ (stepf : ℕ → ℚ × Bool) (j : ℕ),
      (stepf j).2 = true → (∀ i, i < j → (stepf i).2 = false) →
      runEpisode stepf none (j + 1) =
        some (∑ i in Finset.range (j + 1), (stepf i).1, j + 1)) ∧
    (∀ (stepf : ℕ → ℚ × Bool), (∀ i, (stepf i).2 = false) →
      ∀ fuel, runEpisode stepf none fuel = none) :=
  ⟨runEpisode_capped, runEpisode_uncapped_done,
   fun stepf h fuel => episodeLoop_uncapped_nodone stepf h fuel 0 0⟩

/-- Witness for `episode_loop_bounds`: an environment giving reward 1 each
step and `done` at step 2, under cap 5 and uncapped; and a never-done
environment. -/
theorem episode_loop_bounds_witness :
    (∃ k, k ≤ 5 ∧ runEpisode (fun k => ((1 : ℚ), decide (k = 2))) (some 5) 5 =
      some (∑ i in Finset.range k,
        ((fun k => ((1 : ℚ), decide (k = 2))) i).1, k)) ∧
    runEpisode (fun k => ((1 : ℚ), decide (k = 2))) none 3 =
      some (∑ i in Finset.range 3,
        ((fun k => ((1 : ℚ), decide (k = 2))) i).1, 3) ∧
    runEpisode (fun _ => ((1 : ℚ), false)) none 7 = none := by
  refine ⟨episode_loop_bounds.1 _ 5, ?_,
    episode_loop_bounds.2.2 _ (fun i => rfl) 7⟩
  have h := episode_loop_bounds.2.1 (fun k => ((1 : ℚ), decide (k = 2))) 2
    (by decide) (fun i hi => by interval_cases i <;> rfl)
  exact h

/-- **C8.** All failures propagate unhandled — the module contains no
`try`/`except`.  A raise from `env.step`/`agent.act` on the first step of an
episode escapes the episode loop at once; a raise from `eval_performance`
escapes `Evaluator.evaluate_if_necessary` leaving the state untouched (the
`prev_eval_t` assignment is never reached); a raise from `record_stats`
escapes after the evaluation ran, with no checkpoint, no `max_score` update
and no `prev_eval_t` advance; in `AsyncEvaluator` a raise from the
evaluation escapes while the already performed `prev_eval_t` claim stays in
place and `max_score` and the checkpoints are untouched. -/
theorem errors_propagate :
    (∀ (ε : Type) (stepf : ℕ → Except ε (ℚ × Bool)) (e : ε) (fuel : ℕ),
      stepf 0 = Except.error e →
      runEpisodeE ε stepf none (fuel + 1) = some (Except.error e)) ∧
    (∀ (ε : Type) (s : EvaluatorState) (t : ℤ) (e : ε)
        (recordResult : Except ε Unit),
      s.prev_eval_t + s.eval_interval ≤ t →
      Evaluator.evaluate_if_necessaryE ε s t (Except.error e) recordResult =
        (s, Except.error e)) ∧
    (∀ (ε : Type) (s : EvaluatorState) (t : ℤ) (mean : ℚ) (e : ε),
      s.prev_eval_t + s.eval_interval ≤ t →
      Evaluator.evaluate_if_necessaryE ε s t (Except.ok mean) (Except.error e) =
        ({ s with evals := s.evals + 1 }, Except.error e)) ∧
    (∀ (ε : Type) (s : AsyncEvaluatorState) (t : ℤ) (e : ε)
        (recordResult : Except ε Unit),
      s.prev_eval_t + s.eval_interval ≤ t →
      (AsyncEvaluator.evaluate_if_necessaryE ε s t
          (Except.error e) recordResult).2 = Except.error e ∧
      ((AsyncEvaluator.evaluate_if_necessaryE ε s t
          (Except.error e) recordResult).1).max_score = s.max_score ∧
      ((AsyncEvaluator.evaluate_if_necessaryE ε s t
          (Except.error e) recordResult).1).checkpoints = s.checkpoints ∧
      ((AsyncEvaluator.evaluate_if_necessaryE ε s t
          (Except.error e) recordResult).1).prev_eval_t =
        s.prev_eval_t + s.eval_interval) := by
  refine ⟨?_, ?_, ?_, ?_⟩
  · intro ε stepf e fuel h
    rw [runEpisodeE, episodeLoopE]
    simp [h]
  · intro ε s t e recordResult h
    unfold Evaluator.evaluate_if_necessaryE Evaluator.evaluate_and_update_max_scoreE
    rw [if_pos h]
  · intro ε s t mean e h
    unfold Evaluator.evaluate_if_necessaryE Evaluator.evaluate_and_update_max_scoreE
    rw [if_pos h]
  · intro ε s t e recordResult h
    unfold AsyncEvaluator.evaluate_if_necessaryE
      AsyncEvaluator.evaluate_and_update_max_scoreE AsyncEvaluator.write_header
    rw [if_pos h]
    by_cases hw : s.wrote_header <;> simp [hw]

/-- Witness for `errors_propagate`: error value 7, fresh states of both
variants, a due call at t = 100. -/
theorem errors_propagate_witness :
    runEpisodeE ℕ (fun _ => Except.error 7) none 1 = some (Except.error 7) ∧
    Evaluator.evaluate_if_necessaryE ℕ (Evaluator.init 100 0 [] []) 100
        (Except.error 7) (Except.ok ()) =
      (Evaluator.init 100 0 [] [], Except.error 7) ∧
    Evaluator.evaluate_if_necessaryE ℕ (Evaluator.init 100 0 [] []) 100
        (Except.ok 5) (Except.error 7) =
      ({ Evaluator.init 100 0 [] [] with
          evals := (Evaluator.init 100 0 [] []).evals + 1 }, Except.error 7) ∧
    (AsyncEvaluator.evaluate_if_necessaryE ℕ (AsyncEvaluator.init 100 0) 100
        (Except.error 7) (Except.ok ())).2 = Except.error 7 := by
  have hdueE : (Evaluator.init 100 0 [] []).prev_eval_t +
      (Evaluator.init 100 0 [] []).eval_interval ≤ 100 := by
    norm_num [Evaluator.init]
  have hdueA : (AsyncEvaluator.init 100 0).prev_eval_t +
      (AsyncEvaluator.init 100 0).eval_interval ≤ 100 := by
    norm_num [AsyncEvaluator.init]
  exact ⟨errors_propagate.1 ℕ (fun _ => Except.error 7) 7 0 rfl,
    errors_propagate.2.1 ℕ (Evaluator.init 100 0 [] []) 100 7 (Except.ok ()) hdueE,
    errors_propagate.2.2.1 ℕ (Evaluator.init 100 0 [] []) 100 5 7 hdueE,
    (errors_propagate.2.2.2 ℕ (AsyncEvaluator.init 100 0) 100 7
      (Except.ok ()) hdueA).1⟩
